import Mathlib

set_option maxHeartbeats 1000000

/-!
Verification of the job-posting dashboard pipeline.

The development shallow-embeds the data-handling core of the three scripts
(`testdash.py`, `testdash2.py`, `main_dash.py`): Python strings are lists of
characters, pandas timestamps are integers (a day count), Python exceptions
are an explicit error type, and each relevant Python function becomes a total
Lean function returning `Except` where the original can raise.
-/

/-- Python strings are modelled as lists of characters. -/
abbrev PyStr := List Char

/-- The Python exception classes relevant to these scripts.  `overflowError`
is the class raised by out-of-range `timedelta` construction and `datetime`
arithmetic; it is not a `ValueError` or `TypeError` subclass, so the
`except (ValueError, TypeError)` handler of `testdash.py` does not catch
it. -/
inductive PyError where
  | valueError
  | typeError
  | indexError
  | overflowError
deriving DecidableEq

/-- Timestamps (datetime / pandas Timestamp) are modelled as a day count.
All durations in the scripts (`timedelta(days=...)`, `timedelta(weeks=...)`)
are whole numbers of days, so day granularity is exact for them.  The type
itself is unbounded; the range limits of Python `datetime` (years 1 to 9999)
and `timedelta` are enforced where the code performs the arithmetic, in
`boundedShift`, which raises `OverflowError` exactly where Python does. -/
abbrev Timestamp := Int

/-- The whitespace characters recognised by Python `str.split()` and
`str.strip()` (the ASCII fragment). -/
def pyIsSpace (c : Char) : Bool :=
  c == ' ' || c == '\t' || c == '\n' || c == '\r' || c == '\x0b' || c == '\x0c'

/-- Python `str.lower()` on one character (the ASCII fragment: the scripts
compare against ASCII keywords only). -/
def pyLower (c : Char) : Char :=
  if 65 ≤ c.toNat ∧ c.toNat ≤ 90 then Char.ofNat (c.toNat + 32) else c

/-- Python `str.lower()`. -/
def strLower (s : PyStr) : PyStr := s.map pyLower

/-- Python `str.strip()`: remove leading and trailing whitespace. -/
def pyStrip (s : PyStr) : PyStr :=
  ((s.dropWhile pyIsSpace).reverse.dropWhile pyIsSpace).reverse

/-- Worker for `pySplitWs`; `acc` holds the (reversed) current token. -/
def splitWsAux : PyStr → PyStr → List PyStr
  | [], acc => if acc = [] then [] else [acc.reverse]
  | c :: rest, acc =>
      if pyIsSpace c then
        if acc = [] then splitWsAux rest [] else acc.reverse :: splitWsAux rest []
      else splitWsAux rest (c :: acc)

/-- Python `str.split()` with no argument: split on runs of whitespace,
discarding empty pieces. -/
def pySplitWs (s : PyStr) : List PyStr := splitWsAux s []

/-- Worker for `pySplitOn`; `acc` holds the (reversed) current piece. -/
def splitOnAux (sep : Char) : PyStr → PyStr → List PyStr
  | [], acc => [acc.reverse]
  | c :: rest, acc =>
      if c = sep then acc.reverse :: splitOnAux sep rest []
      else splitOnAux sep rest (c :: acc)

/-- Python `str.split(sep)` for a one-character separator: split at every
occurrence of `sep`, keeping empty pieces (the result is never empty). -/
def pySplitOn (sep : Char) (s : PyStr) : List PyStr := splitOnAux sep s []

/-- Python substring test `needle in hay`. -/
def pyIn (needle : PyStr) : PyStr → Bool
  | [] => needle.isEmpty
  | c :: rest => needle.isPrefixOf (c :: rest) || pyIn needle rest

/-- ASCII decimal digit test. -/
def pyIsDigit (c : Char) : Bool := decide (48 ≤ c.toNat ∧ c.toNat ≤ 57)

/-- Numeric value of one ASCII digit. -/
def digitVal (c : Char) : Nat := c.toNat - 48

/-- Decimal value of a digit string. -/
def digitsVal (ds : PyStr) : Nat := ds.foldl (fun a c => 10 * a + digitVal c) 0

/-- Conversion of a plain digit string, the common core of Python `int(str)`:
a nonempty all-digit string has its decimal value, anything else raises
`ValueError`. -/
def intFromDigits (ds : PyStr) : Except PyError Int :=
  if ds ≠ [] ∧ ds.all pyIsDigit then .ok (digitsVal ds) else .error .valueError

/-- Python `int(s)` on a string: strip whitespace, optional sign, then decimal
digits; any other shape raises `ValueError`.  (Underscore separators and
non-ASCII digits, which the scripts never feed to `int`, are outside the
model and also map to `ValueError`.) -/
def pyInt (s : PyStr) : Except PyError Int :=
  match pyStrip s with
  | [] => .error .valueError
  | c :: rest =>
      if c = '+' then intFromDigits rest
      else if c = '-' then (intFromDigits rest).map (fun n => -n)
      else intFromDigits (c :: rest)

/-- Cumulative day count before month `m` in a non-leap year. -/
def cumMonthDays (m : Nat) : Nat :=
  (([31, 28, 31, 30, 31, 30, 31, 31, 30, 31, 30, 31].take (m - 1)).foldl (· + ·) 0)

/-- Gregorian leap-year test. -/
def isLeapYear (y : Nat) : Bool := (y % 4 == 0 && y % 100 != 0) || y % 400 == 0

/-- Day serial number of a Gregorian civil date. -/
def daysFromCivil (y m d : Nat) : Timestamp :=
  ((365 * y + y / 4 - y / 100 + y / 400 + cumMonthDays m
      + (if 2 < m && isLeapYear y then 1 else 0) + d : Nat) : Int)

/-- Models `pandas.to_datetime` on one string.  The model recognises ISO
`YYYY-MM-DD` dates (a representative subset of the formats pandas accepts)
and raises `ValueError` on everything else; in pandas every parse failure of
a string (dateutil `ParserError`, `OutOfBoundsDatetime`) is a `ValueError`
subclass, so the error class is faithful. -/
def pdToDatetime (s : PyStr) : Except PyError Timestamp :=
  match pyStrip s with
  | [y1, y2, y3, y4, '-', m1, m2, '-', d1, d2] =>
      if [y1, y2, y3, y4].all pyIsDigit && [m1, m2].all pyIsDigit
          && [d1, d2].all pyIsDigit then
        if 1 ≤ digitsVal [m1, m2] && digitsVal [m1, m2] ≤ 12
            && 1 ≤ digitsVal [d1, d2] && digitsVal [d1, d2] ≤ 31 then
          .ok (daysFromCivil (digitsVal [y1, y2, y3, y4]) (digitsVal [m1, m2])
                (digitsVal [d1, d2]))
        else .error .valueError
      else .error .valueError
  | _ => .error .valueError

/-- Models `pandas.to_datetime(s, errors="coerce")`: a parse failure becomes
the sentinel `NaT` (here `none`) instead of raising. -/
def pdToDatetimeCoerce (s : PyStr) : Option Timestamp := (pdToDatetime s).toOption

/-- The token `ago`, tested by `'ago' in date_str.lower()`. -/
def agoTok : PyStr := ['a', 'g', 'o']

/-- The token `month`. -/
def monthTok : PyStr := ['m', 'o', 'n', 't', 'h']

/-- The token `week`. -/
def weekTok : PyStr := ['w', 'e', 'e', 'k']

/-- The token `day`. -/
def dayTok : PyStr := ['d', 'a', 'y']

/-- First representable day of Python `datetime` (`datetime.min`, year 1). -/
def datetimeMinDay : Timestamp := daysFromCivil 1 1 1

/-- Last representable day of Python `datetime` (`datetime.max`, year 9999). -/
def datetimeMaxDay : Timestamp := daysFromCivil 9999 12 31

/-- Magnitude bound of Python `timedelta` in days: constructing a delta of
more than 999999999 days raises `OverflowError`. -/
def timedeltaMaxDays : Int := 999999999

/-- Models `reference_date - timedelta(days = k * n)` (equally
`timedelta(weeks=...)`, whose day equivalent is bounded the same way):
`OverflowError` when the delta exceeds the `timedelta` bound or when the
resulting date leaves the `datetime` range, otherwise the shifted day. -/
def boundedShift (ref k n : Int) : Except PyError (Option Timestamp) :=
  if k * n < -timedeltaMaxDays ∨ timedeltaMaxDays < k * n then
    .error .overflowError
  else if ref - k * n < datetimeMinDay ∨ datetimeMaxDay < ref - k * n then
    .error .overflowError
  else .ok (some (ref - k * n))

/-- One unit branch of `parse_relative_date`: the magnitude is
`int(s.split()[0])` (an empty split raises `IndexError`), and the result is
`reference - magnitude * daysPerUnit` days, with the overflow behaviour of
the Python date arithmetic. -/
def unitResult (ref : Timestamp) (daysPerUnit : Int) (s : PyStr) :
    Except PyError (Option Timestamp) :=
  match pySplitWs s with
  | [] => .error .indexError
  | tok :: _ => (pyInt tok).bind (boundedShift ref daysPerUnit)

/-- The `except (ValueError, TypeError)` handler of `testdash.py`
`parse_relative_date`: those two exception classes become `pd.NaT` (`none`),
anything else propagates. -/
def pyCatchVT (r : Except PyError (Option Timestamp)) :
    Except PyError (Option Timestamp) :=
  match r with
  | .error .valueError => .ok none
  | .error .typeError => .ok none
  | x => x

/-- The `except Exception` handler of `testdash2.py` `parse_relative_date`:
every exception becomes `pd.NaT` (`none`). -/
def pyCatchAll (r : Except PyError (Option Timestamp)) :
    Except PyError (Option Timestamp) :=
  match r with
  | .error _ => .ok none
  | x => x

/-- Body of the `try` block of `parse_relative_date` in `testdash.py`
(lines 79-90): tests lower-case the input each time, the split for the
magnitude is over the original string, and a string without a matched unit
(or without `ago`) falls through to `pd.to_datetime`. -/
def parse_relative_date_try (ref : Timestamp) (date_str : PyStr) :
    Except PyError (Option Timestamp) :=
  if pyIn agoTok (strLower date_str) then
    if pyIn monthTok (strLower date_str) then unitResult ref 30 date_str
    else if pyIn weekTok (strLower date_str) then unitResult ref 7 date_str
    else if pyIn dayTok (strLower date_str) then unitResult ref 1 date_str
    else (pdToDatetime date_str).map some
  else (pdToDatetime date_str).map some

/-- `parse_relative_date` of `testdash.py` (lines 76-92), with the reference
instant passed explicitly (the script pins `datetime(2025, 9, 5)` as the
default). -/
def parse_relative_date (ref : Timestamp) (date_str : PyStr) :
    Except PyError (Option Timestamp) :=
  pyCatchVT (parse_relative_date_try ref date_str)

/-- Body of the `try` block of `parse_relative_date` in `testdash2.py`
(lines 64-76): here the input is lower-cased once into `s`, the split is over
`s`, and the fallthrough uses `pd.to_datetime(date_str, errors="coerce")`. -/
def parse_relative_date2_try (ref : Timestamp) (date_str : PyStr) :
    Except PyError (Option Timestamp) :=
  if pyIn agoTok (strLower date_str) then
    if pyIn monthTok (strLower date_str) then unitResult ref 30 (strLower date_str)
    else if pyIn weekTok (strLower date_str) then unitResult ref 7 (strLower date_str)
    else if pyIn dayTok (strLower date_str) then unitResult ref 1 (strLower date_str)
    else .ok (pdToDatetimeCoerce date_str)
  else .ok (pdToDatetimeCoerce date_str)

/-- `parse_relative_date` of `testdash2.py` (lines 61-78), with the reference
instant passed explicitly (the script defaults to `datetime.now()`). -/
def parse_relative_date2 (ref : Timestamp) (date_str : PyStr) :
    Except PyError (Option Timestamp) :=
  pyCatchAll (parse_relative_date2_try ref date_str)

/-- One sheet row after header normalisation, with the canonical columns of
`testdash.py` / `testdash2.py`. -/
structure SheetRow where
  job_postings : PyStr
  company : PyStr
  place : PyStr
  status : PyStr
  posted_on : PyStr
  url_link : PyStr
deriving DecidableEq

/-- A row after `df['posted_on'].apply(parse_relative_date)`: the date column
now holds a timestamp or the `NaT` sentinel (`none`). -/
structure ParsedRow where
  job_postings : PyStr
  company : PyStr
  place : PyStr
  status : PyStr
  posted_on : Option Timestamp
  url_link : PyStr
deriving DecidableEq

/-- A fully cleaned row, including the derived `city` column. -/
structure CleanRow where
  job_postings : PyStr
  company : PyStr
  place : PyStr
  status : PyStr
  posted_on : Option Timestamp
  url_link : PyStr
  city : PyStr
deriving DecidableEq

/-- `df['posted_on'].apply(parse_relative_date)` over the whole table: an
exception escaping the parser would abort the load, so the result is
`Except`. -/
def applyParse (ref : Timestamp) : List SheetRow → Except PyError (List ParsedRow)
  | [] => .ok []
  | r :: rest => do
      let t ← parse_relative_date ref r.posted_on
      let tail ← applyParse ref rest
      pure (({ job_postings := r.job_postings, company := r.company,
               place := r.place, status := r.status, posted_on := t,
               url_link := r.url_link } : ParsedRow) :: tail)

/-- Per-row text cleaning of `testdash.py` lines 97-102: strip the title,
company and place, and derive `city` as the stripped first comma-piece of the
(already stripped) place. -/
def cleanRow (r : ParsedRow) : CleanRow :=
  { job_postings := pyStrip r.job_postings
    company := pyStrip r.company
    place := pyStrip r.place
    status := r.status
    posted_on := r.posted_on
    url_link := r.url_link
    city := pyStrip ((pySplitOn ',' (pyStrip r.place)).headD []) }

/-- The cleaning pipeline of `testdash.py` lines 95-102 (identical in
`testdash2.py` lines 81-86): parse the dates, `dropna` the rows whose date is
the sentinel, then clean the text columns and derive `city`. -/
def cleanRows (ref : Timestamp) (rows : List SheetRow) :
    Except PyError (List CleanRow) :=
  (applyParse ref rows).map
    (fun parsed => (parsed.filter (fun r => r.posted_on.isSome)).map cleanRow)

/-- A schema failure: the canonical columns still missing after the rename
(printed by `testdash.py` line 72 before the script exits). -/
structure SchemaError where
  missing : List PyStr
deriving DecidableEq

/-- The fixed synonym table `expected_columns` of `testdash.py` lines 50-57
(identical in `testdash2.py` lines 44-51): lower-case raw header to canonical
column name. -/
def expected_columns : List (PyStr × PyStr) :=
  [("job postings".toList, "job_postings".toList),
   ("company".toList, "company".toList),
   ("place".toList, "place".toList),
   ("status".toList, "status".toList),
   ("posted on".toList, "posted_on".toList),
   ("url link".toList, "url_link".toList)]

/-- The rename applied to one already stripped-and-lowered header: the
`column_mapping` loop of `testdash.py` lines 60-67 maps a header equal
(case-insensitively) to a synonym-table key to its canonical name and leaves
every other header unchanged. -/
def renameHeader (h : PyStr) : PyStr :=
  match expected_columns.find? (fun p => strLower p.1 == strLower h) with
  | some p => p.2
  | none => h

/-- `df.columns.str.strip().str.lower()` followed by the rename: the full
header normalisation of `testdash.py` lines 47-67. -/
def normalizedHeaders (hs : List PyStr) : List PyStr :=
  hs.map (fun h => renameHeader (strLower (pyStrip h)))

/-- The required canonical fields named by the specification: title, company,
location, status and the raw posted date. -/
def requiredFields : List PyStr :=
  ["job_postings".toList, "company".toList, "place".toList, "status".toList,
   "posted_on".toList]

/-- `missing_cols` of `testdash.py` line 70 (`testdash2.py` line 55): the
canonical columns absent after the rename. -/
def missing_cols (hs : List PyStr) : List PyStr :=
  (expected_columns.map Prod.snd).filter
    (fun c => !((normalizedHeaders hs).contains c))

/-- Header normalisation of `testdash.py` lines 47-73: if any canonical
column is missing the script prints the missing list and exits (modelled as a
`SchemaError`), otherwise the renamed table proceeds. -/
def normalize_sheet (hs : List PyStr) (rows : List (List PyStr)) :
    Except SchemaError (List PyStr × List (List PyStr)) :=
  if missing_cols hs = [] then .ok (normalizedHeaders hs, rows)
  else .error { missing := missing_cols hs }

/-- The rename dictionary of `main_dash.py` lines 26-34: the same synonym
table plus the identity entry for `job_description`. -/
def main_rename_map : List (PyStr × PyStr) :=
  expected_columns ++ [("job_description".toList, "job_description".toList)]

/-- The rename applied by `main_dash.py` to one stripped-and-lowered column
key (exact match against the dictionary, unmatched keys unchanged). -/
def renameKey (h : PyStr) : PyStr :=
  match main_rename_map.find? (fun p => p.1 == h) with
  | some p => p.2
  | none => h

/-- `load_data` of `main_dash.py` lines 18-39, with a row as an association
list from column key to cell value.  The function strips and lower-cases the
keys and renames them through the dictionary; it performs no missing-column
check, so the resulting table is returned to the caller as-is (the
`except` branch only covers sheet-fetch failures, which return an empty
table and are outside this model). -/
def load_data (rows : List (List (PyStr × PyStr))) : List (List (PyStr × PyStr)) :=
  rows.map (fun row => row.map (fun kv => (renameKey (strLower (pyStrip kv.1)), kv.2)))

/-- One record of the `main_dash.py` table; `job_description` is optional
because the column may be absent or null (`fillna("")` guards its use). -/
structure MainRow where
  job_postings : PyStr
  company : PyStr
  place : PyStr
  status : PyStr
  posted_on : PyStr
  url_link : PyStr
  job_description : Option PyStr
deriving DecidableEq

/-- The keyword term list of `main_dash.py` line 143:
`[k.strip().lower() for k in keywords.split(",") if k.strip()]`. -/
def pyTerms (keywords : PyStr) : List PyStr :=
  (pySplitOn ',' keywords).filterMap
    (fun k => if pyStrip k = [] then none else some (strLower (pyStrip k)))

/-- The keyword match of `main_dash.py` lines 144-146: the description is
`fillna("")`-defaulted, lower-cased, and matches when any term is a
substring. -/
def keywordMask (keywords : PyStr) (desc : Option PyStr) : Bool :=
  (pyTerms keywords).any (fun t => pyIn t (strLower (desc.getD [])))

/-- The keyword branch of `update_table` (`main_dash.py` lines 142-147):
applied only when the keywords input is truthy (nonempty). -/
def keyword_filter (keywords : PyStr) (rows : List MainRow) : List MainRow :=
  if keywords = [] then rows
  else rows.filter (fun r => keywordMask keywords r.job_description)

/-- The filter chain of `update_table` (`main_dash.py` lines 134-147):
`isin` restrictions for the three dropdowns (each skipped when its selection
is falsy) followed by the keyword filter.  `isin` is exact, case-sensitive
string membership. -/
def update_table_filter (companies places statuses : List PyStr)
    (keywords : PyStr) (rows : List MainRow) : List MainRow :=
  let f1 := if companies = [] then rows
    else rows.filter (fun r => decide (r.company ∈ companies))
  let f2 := if places = [] then f1
    else f1.filter (fun r => decide (r.place ∈ places))
  let f3 := if statuses = [] then f2
    else f2.filter (fun r => decide (r.status ∈ statuses))
  keyword_filter keywords f3

/-- Worker for `uniqueInOrder`; `seen` holds the values already emitted. -/
def uniqueInOrderAux : List PyStr → List PyStr → List PyStr
  | [], _ => []
  | x :: xs, seen =>
      if x ∈ seen then uniqueInOrderAux xs seen
      else x :: uniqueInOrderAux xs (x :: seen)

/-- The distinct values of a column in first-appearance order (the key order
pandas `value_counts` produces before sorting by count). -/
def uniqueInOrder (l : List PyStr) : List PyStr := uniqueInOrderAux l []

/-- Number of occurrences of a value in a column. -/
def countOcc (v : PyStr) : List PyStr → Nat
  | [] => 0
  | x :: xs => (if x = v then 1 else 0) + countOcc v xs

/-- Index of the first occurrence of a value in a column (length when
absent). -/
def firstIdx (v : PyStr) : List PyStr → Nat
  | [] => 0
  | x :: xs => if x = v then 0 else firstIdx v xs + 1

/-- Each distinct value paired with its count, tagged with its first-
occurrence index for sorting. -/
def rankedPairs (l : List PyStr) : List ((PyStr × Nat) × Nat) :=
  (uniqueInOrder l).map (fun v => ((v, countOcc v l), firstIdx v l))

/-- The `value_counts` order: larger count first, ties by earlier first
occurrence. -/
def vcLe (a b : (PyStr × Nat) × Nat) : Prop :=
  b.1.2 < a.1.2 ∨ (a.1.2 = b.1.2 ∧ a.2 ≤ b.2)

instance : DecidableRel vcLe := fun a b =>
  inferInstanceAs (Decidable (b.1.2 < a.1.2 ∨ (a.1.2 = b.1.2 ∧ a.2 ≤ b.2)))

instance : IsTotal ((PyStr × Nat) × Nat) vcLe :=
  ⟨fun a b => by unfold vcLe; omega⟩

instance : IsTrans ((PyStr × Nat) × Nat) vcLe :=
  ⟨fun a b c h1 h2 => by unfold vcLe at *; omega⟩

/-- Models `pandas.Series.value_counts()` on a string column: one entry per
distinct value with its occurrence count, sorted by count descending with
ties in first-appearance order (the order the specification and the observed
pandas behaviour describe). -/
def value_counts (l : List PyStr) : List (PyStr × Nat) :=
  (List.insertionSort vcLe (rankedPairs l)).map Prod.fst

/-- `top_companies` of `testdash.py` line 109 (`value_counts().head(5)`),
over the cleaned table. -/
def top_companies (rows : List CleanRow) : List (PyStr × Nat) :=
  (value_counts (rows.map (fun r => r.company))).take 5

/-- `top_places` of `testdash.py` line 110. -/
def top_places (rows : List CleanRow) : List (PyStr × Nat) :=
  (value_counts (rows.map (fun r => r.place))).take 5

/-- `city_counts` of `testdash.py` line 111. -/
def city_counts (rows : List CleanRow) : List (PyStr × Nat) :=
  (value_counts (rows.map (fun r => r.city))).take 5

/-- The ordering a top-5 listing must satisfy relative to the source column:
count descending, equal counts by first occurrence in the column. -/
def firstOccOrder (l : List PyStr) (a b : PyStr × Nat) : Prop :=
  b.2 < a.2 ∨ (a.2 = b.2 ∧ firstIdx a.1 l < firstIdx b.1 l)

/-- What the claim asserts of a top-5 aggregation `out` of the column `l`:
exactly `min 5 (number of distinct values)` entries, each value paired with
its occurrence count, ordered by count descending with ties in first-
occurrence order. -/
def TopFiveSpec (l : List PyStr) (out : List (PyStr × Nat)) : Prop :=
  out.length = min 5 (uniqueInOrder l).length
  ∧ (∀ p ∈ out, p.2 = countOcc p.1 l)
  ∧ out.Pairwise (firstOccOrder l)

lemma pyIsSpace_toNat_le {c : Char} (h : pyIsSpace c = true) : c.toNat ≤ 32 := by
  simp only [pyIsSpace, Bool.or_eq_true, beq_iff_eq] at h
  rcases h with ((((h | h) | h) | h) | h) | h <;> subst h <;> decide

lemma pyLower_of_space {c : Char} (h : pyIsSpace c = true) : pyLower c = c := by
  have hle := pyIsSpace_toNat_le h
  unfold pyLower
  rw [if_neg]
  omega

lemma pyIsSpace_letter_shift (m : Nat) (h1 : 65 ≤ m) (h2 : m ≤ 90) :
    pyIsSpace (Char.ofNat (m + 32)) = false := by
  interval_cases m <;> decide

lemma pyLower_nonspace {c : Char} (h : pyIsSpace c = false) :
    pyIsSpace (pyLower c) = false := by
  unfold pyLower
  split
  · next hc => exact pyIsSpace_letter_shift c.toNat hc.1 hc.2
  · exact h

lemma pyIsDigit_bounds {c : Char} (h : pyIsDigit c = true) :
    48 ≤ c.toNat ∧ c.toNat ≤ 57 := by
  simpa [pyIsDigit] using h

lemma pyLower_digit {c : Char} (h : pyIsDigit c = true) : pyLower c = c := by
  have hb := pyIsDigit_bounds h
  unfold pyLower
  rw [if_neg]
  omega

lemma pyIsSpace_of_digit {c : Char} (h : pyIsDigit c = true) :
    pyIsSpace c = false := by
  have hb := pyIsDigit_bounds h
  cases hs : pyIsSpace c
  · rfl
  · have := pyIsSpace_toNat_le hs
    omega

lemma strLower_digits {ds : PyStr} (h : ∀ c ∈ ds, pyIsDigit c = true) :
    strLower ds = ds := by
  induction ds with
  | nil => rfl
  | cons c cs ih =>
      show pyLower c :: strLower cs = c :: cs
      rw [pyLower_digit (h c (List.mem_cons_self c cs)),
        ih (fun x hx => h x (List.mem_cons_of_mem c hx))]

lemma strLower_append (a b : PyStr) :
    strLower (a ++ b) = strLower a ++ strLower b := List.map_append _ a b

lemma pyIn_subset {t h : PyStr} (hin : pyIn t h = true) : ∀ x ∈ t, x ∈ h := by
  induction h with
  | nil =>
      intro x hx
      simp only [pyIn, List.isEmpty_iff] at hin
      subst hin
      cases hx
  | cons c rest ih =>
      simp only [pyIn, Bool.or_eq_true] at hin
      rcases hin with hp | hp
      · exact fun x hx => (List.isPrefixOf_iff_prefix.mp hp).subset hx
      · exact fun x hx => List.mem_cons_of_mem c (ih hp x hx)

lemma splitWsAux_ne_nil : ∀ (l acc : PyStr), acc ≠ [] → splitWsAux l acc ≠ [] := by
  intro l
  induction l with
  | nil => intro acc h; simp [splitWsAux, h]
  | cons c rest ih =>
      intro acc h
      cases hsp : pyIsSpace c
      · simpa [splitWsAux, hsp] using ih (c :: acc) (List.cons_ne_nil c acc)
      · simp [splitWsAux, hsp, h]

lemma splitWs_ne_nil : ∀ {s : PyStr}, (∃ c ∈ s, pyIsSpace c = false) →
    pySplitWs s ≠ [] := by
  intro s
  induction s with
  | nil => rintro ⟨c, hc, -⟩; cases hc
  | cons c rest ih =>
      rintro ⟨x, hx, hxs⟩
      cases hsp : pyIsSpace c
      · have hne : splitWsAux rest [c] ≠ [] :=
          splitWsAux_ne_nil rest [c] (List.cons_ne_nil c [])
        simpa [pySplitWs, splitWsAux, hsp] using hne
      · rcases List.mem_cons.mp hx with hxc | hxr
        · subst hxc; rw [hsp] at hxs; cases hxs
        · have hne : pySplitWs rest ≠ [] := ih ⟨x, hxr, hxs⟩
          simpa [pySplitWs, splitWsAux, hsp] using hne

lemma ago_nonspace {s : PyStr} (h : pyIn agoTok (strLower s) = true) :
    ∃ c ∈ s, pyIsSpace c = false := by
  have ha : 'a' ∈ strLower s := pyIn_subset h 'a' (by decide)
  obtain ⟨c, hc, hcl⟩ := List.mem_map.mp ha
  refine ⟨c, hc, ?_⟩
  cases hsp : pyIsSpace c
  · rfl
  · rw [pyLower_of_space hsp] at hcl
    subst hcl
    cases hsp

lemma intFromDigits_cases (ds : PyStr) :
    (∃ n, intFromDigits ds = .ok n) ∨ intFromDigits ds = .error .valueError := by
  unfold intFromDigits
  split
  · exact Or.inl ⟨_, rfl⟩
  · exact Or.inr rfl

lemma pyInt_cases (s : PyStr) :
    (∃ n, pyInt s = .ok n) ∨ pyInt s = .error .valueError := by
  unfold pyInt
  split
  · exact Or.inr rfl
  · next c rest _ =>
      split
      · exact intFromDigits_cases rest
      · split
        · rcases intFromDigits_cases rest with ⟨n, hn⟩ | hn <;> rw [hn]
          · exact Or.inl ⟨-n, rfl⟩
          · exact Or.inr rfl
        · exact intFromDigits_cases (c :: rest)

lemma pdToDatetime_cases (s : PyStr) :
    (∃ t, pdToDatetime s = .ok t) ∨ pdToDatetime s = .error .valueError := by
  unfold pdToDatetime
  split
  · split
    · split
      · exact Or.inl ⟨_, rfl⟩
      · exact Or.inr rfl
    · exact Or.inr rfl
  · exact Or.inr rfl

lemma pdToDatetime_map_cases (s : PyStr) :
    (∃ v, (pdToDatetime s).map some = .ok v)
      ∨ (pdToDatetime s).map some = .error (α := Option Timestamp) .valueError := by
  rcases pdToDatetime_cases s with ⟨t, ht⟩ | ht <;> rw [ht]
  · exact Or.inl ⟨some t, rfl⟩
  · exact Or.inr rfl

lemma boundedShift_cases (ref k n : Int) :
    (∃ v, boundedShift ref k n = .ok v)
      ∨ boundedShift ref k n = .error .overflowError := by
  unfold boundedShift
  split
  · exact Or.inr rfl
  · split
    · exact Or.inr rfl
    · exact Or.inl ⟨_, rfl⟩

lemma unitResult_cases {s : PyStr} (ref : Timestamp) (k : Int)
    (h : pySplitWs s ≠ []) :
    (∃ v, unitResult ref k s = .ok v)
      ∨ unitResult ref k s = .error .valueError
      ∨ unitResult ref k s = .error .overflowError := by
  cases hsp : pySplitWs s with
  | nil => exact absurd hsp h
  | cons tok rest =>
      have he : unitResult ref k s = (pyInt tok).bind (boundedShift ref k) := by
        unfold unitResult
        rw [hsp]
      rcases pyInt_cases tok with ⟨n, hn⟩ | hn
      · rw [he, hn]
        rcases boundedShift_cases ref k n with ⟨v, hv⟩ | hv
        · exact Or.inl ⟨v, hv⟩
        · exact Or.inr (Or.inr hv)
      · rw [he, hn]
        exact Or.inr (Or.inl rfl)

lemma parse_try_cases (ref : Timestamp) (s : PyStr) :
    (∃ v, parse_relative_date_try ref s = .ok v)
      ∨ parse_relative_date_try ref s = .error .valueError
      ∨ parse_relative_date_try ref s = .error .overflowError := by
  unfold parse_relative_date_try
  split
  · next hago =>
      have hne : pySplitWs s ≠ [] := splitWs_ne_nil (ago_nonspace hago)
      split
      · exact unitResult_cases ref 30 hne
      · split
        · exact unitResult_cases ref 7 hne
        · split
          · exact unitResult_cases ref 1 hne
          · rcases pdToDatetime_map_cases s with h | h
            · exact Or.inl h
            · exact Or.inr (Or.inl h)
  · rcases pdToDatetime_map_cases s with h | h
    · exact Or.inl h
    · exact Or.inr (Or.inl h)

/-- Claim C2 (amended): the `testdash2.py` parser never raises — it returns
a timestamp or the sentinel for every input string.  The `testdash.py`
parser catches `ValueError` and `TypeError`, so the only exception that can
escape to its caller is the `OverflowError` of out-of-range date
arithmetic. -/
theorem parse_relative_date_exception_boundary (s : PyStr) (ref : Timestamp) :
    ((∃ r, parse_relative_date ref s = .ok r)
      ∨ parse_relative_date ref s = .error .overflowError)
    ∧ (∃ r, parse_relative_date2 ref s = .ok r) := by
  constructor
  · rcases parse_try_cases ref s with ⟨v, hv⟩ | hv | hv
    · exact Or.inl ⟨v, by unfold parse_relative_date; rw [hv]; rfl⟩
    · exact Or.inl ⟨none, by unfold parse_relative_date; rw [hv]; rfl⟩
    · exact Or.inr (by unfold parse_relative_date; rw [hv]; rfl)
  · cases h2 : parse_relative_date2_try ref s with
    | ok v => exact ⟨v, by unfold parse_relative_date2; rw [h2]; rfl⟩
    | error e =>
        exact ⟨none, by unfold parse_relative_date2; rw [h2]; cases e <;> rfl⟩

/-- Counterexample to C2 as stated: on `800000 days ago` with the script's
pinned reference date, the `testdash.py` parser raises `OverflowError` past
its `except (ValueError, TypeError)` boundary. -/
theorem c2_counterexample_overflow :
    parse_relative_date (daysFromCivil 2025 9 5) ("800000 days ago".toList)
      = .error .overflowError := by rfl

lemma isPrefixOf_cons_cons (a c : Char) (as cs : List Char) :
    (a :: as).isPrefixOf (c :: cs) = (a == c && as.isPrefixOf cs) := rfl

lemma pyIn_append_right {n t : PyStr} (ds : PyStr) (h : pyIn n t = true) :
    pyIn n (ds ++ t) = true := by
  induction ds with
  | nil => exact h
  | cons c cs ih =>
      simp only [List.cons_append, pyIn, Bool.or_eq_true]
      exact Or.inr ih

lemma pyIn_append_left {n : PyStr} {n0 : Char} (hn : n.head? = some n0)
    (ds t : PyStr) (h : ∀ c ∈ ds, n0 ≠ c) :
    pyIn n (ds ++ t) = pyIn n t := by
  induction ds with
  | nil => rfl
  | cons c cs ih =>
      cases n with
      | nil => simp at hn
      | cons a as =>
          have ha : a = n0 := by simpa using hn
          have hnc : (a == c) = false := by
            rw [ha]
            exact beq_eq_false_iff_ne.mpr (h c (List.mem_cons_self c cs))
          simp only [List.cons_append, pyIn, isPrefixOf_cons_cons, hnc,
            Bool.false_and, Bool.false_or]
          exact ih (fun x hx => h x (List.mem_cons_of_mem c hx))

lemma digit_ne {ds : PyStr} (hd : ∀ c ∈ ds, pyIsDigit c = true) {x : Char}
    (hx : 57 < x.toNat) : ∀ c ∈ ds, x ≠ c := by
  intro c hc he
  have hb := pyIsDigit_bounds (hd c hc)
  rw [← he] at hb
  omega

lemma strLower_digits_append {ds t : PyStr} (hd : ∀ c ∈ ds, pyIsDigit c = true)
    (ht : strLower t = t) : strLower (ds ++ t) = ds ++ t := by
  rw [strLower_append, strLower_digits hd, ht]

lemma dropWhile_false (p : Char → Bool) :
    ∀ l : PyStr, (∀ c ∈ l, p c = false) → l.dropWhile p = l := by
  intro l h
  cases l with
  | nil => rfl
  | cons c cs => simp [List.dropWhile_cons, h c (List.mem_cons_self c cs)]

lemma pyStrip_nonspace {l : PyStr} (h : ∀ c ∈ l, pyIsSpace c = false) :
    pyStrip l = l := by
  unfold pyStrip
  rw [dropWhile_false _ l h,
    dropWhile_false _ l.reverse (fun c hc => h c (List.mem_reverse.mp hc))]
  exact List.reverse_reverse l

lemma pyInt_digits {ds : PyStr} (hne : ds ≠ [])
    (hd : ∀ c ∈ ds, pyIsDigit c = true) : pyInt ds = .ok (digitsVal ds) := by
  cases ds with
  | nil => exact absurd rfl hne
  | cons c cs =>
      have hs : pyStrip (c :: cs) = c :: cs :=
        pyStrip_nonspace (fun x hx => pyIsSpace_of_digit (hd x hx))
      have hcd := hd c (List.mem_cons_self c cs)
      have hc1 : ¬ c = '+' := fun he => by
        subst he
        exact absurd hcd (by decide)
      have hc2 : ¬ c = '-' := fun he => by
        subst he
        exact absurd hcd (by decide)
      have key : pyInt (c :: cs) =
          (if c = '+' then intFromDigits cs
           else if c = '-' then (intFromDigits cs).map (fun n => -n)
           else intFromDigits (c :: cs)) := by
        unfold pyInt
        rw [hs]
      rw [key, if_neg hc1, if_neg hc2]
      unfold intFromDigits
      rw [if_pos ⟨List.cons_ne_nil c cs, List.all_eq_true.mpr hd⟩]

lemma splitWsAux_nonspace_front :
    ∀ (ds rest acc : PyStr), (∀ c ∈ ds, pyIsSpace c = false) →
      splitWsAux (ds ++ rest) acc = splitWsAux rest (ds.reverse ++ acc) := by
  intro ds
  induction ds with
  | nil => intro rest acc _; rfl
  | cons c cs ih =>
      intro rest acc h
      have hc : pyIsSpace c = false := h c (List.mem_cons_self c cs)
      simp only [List.cons_append, splitWsAux, hc, Bool.false_eq_true, if_false]
      show splitWsAux (cs ++ rest) (c :: acc) = splitWsAux rest ((c :: cs).reverse ++ acc)
      rw [ih rest (c :: acc) (fun x hx => h x (List.mem_cons_of_mem c hx))]
      simp [List.append_assoc]

lemma pySplitWs_token (ds t : PyStr) (hne : ds ≠ [])
    (h : ∀ c ∈ ds, pyIsSpace c = false) :
    pySplitWs (ds ++ ' ' :: t) = ds :: pySplitWs t := by
  unfold pySplitWs
  rw [splitWsAux_nonspace_front ds (' ' :: t) [] h, List.append_nil]
  have hrev : ¬ ds.reverse = [] := fun hr =>
    hne (by simpa using congrArg List.reverse hr)
  simp [splitWsAux, pyIsSpace, hrev]

lemma unitResult_digits (ref : Timestamp) (k : Int) {ds : PyStr} (t : PyStr)
    (hne : ds ≠ []) (hd : ∀ c ∈ ds, pyIsDigit c = true) (hk : 0 ≤ k)
    (hb1 : k * (digitsVal ds : Int) ≤ timedeltaMaxDays)
    (hb2 : datetimeMinDay ≤ ref - k * (digitsVal ds : Int))
    (hb3 : ref - k * (digitsVal ds : Int) ≤ datetimeMaxDay) :
    unitResult ref k (ds ++ ' ' :: t) = .ok (some (ref - k * digitsVal ds)) := by
  have hsp := pySplitWs_token ds t hne
    (fun c hc => pyIsSpace_of_digit (hd c hc))
  unfold unitResult
  rw [hsp]
  show (pyInt ds).bind (boundedShift ref k) = _
  rw [pyInt_digits hne hd]
  show boundedShift ref k (digitsVal ds) = _
  have hnn : (0 : Int) ≤ k * (digitsVal ds : Int) :=
    mul_nonneg hk (Int.natCast_nonneg _)
  have htd : (0 : Int) ≤ timedeltaMaxDays := by decide
  unfold boundedShift
  rw [if_neg (by omega), if_neg (by push_neg; exact ⟨hb2, hb3⟩)]

lemma parse_month_case (ref : Timestamp) {s : PyStr}
    (h1 : pyIn agoTok (strLower s) = true)
    (h2 : pyIn monthTok (strLower s) = true) :
    parse_relative_date ref s = pyCatchVT (unitResult ref 30 s)
      ∧ parse_relative_date2 ref s = pyCatchAll (unitResult ref 30 (strLower s)) := by
  unfold parse_relative_date parse_relative_date_try parse_relative_date2
    parse_relative_date2_try
  rw [h1, h2]
  exact ⟨by simp, by simp⟩

lemma parse_week_case (ref : Timestamp) {s : PyStr}
    (h1 : pyIn agoTok (strLower s) = true)
    (h2 : pyIn monthTok (strLower s) = false)
    (h3 : pyIn weekTok (strLower s) = true) :
    parse_relative_date ref s = pyCatchVT (unitResult ref 7 s)
      ∧ parse_relative_date2 ref s = pyCatchAll (unitResult ref 7 (strLower s)) := by
  unfold parse_relative_date parse_relative_date_try parse_relative_date2
    parse_relative_date2_try
  rw [h1, h2, h3]
  exact ⟨by simp, by simp⟩

lemma parse_day_case (ref : Timestamp) {s : PyStr}
    (h1 : pyIn agoTok (strLower s) = true)
    (h2 : pyIn monthTok (strLower s) = false)
    (h3 : pyIn weekTok (strLower s) = false)
    (h4 : pyIn dayTok (strLower s) = true) :
    parse_relative_date ref s = pyCatchVT (unitResult ref 1 s)
      ∧ parse_relative_date2 ref s = pyCatchAll (unitResult ref 1 (strLower s)) := by
  unfold parse_relative_date parse_relative_date_try parse_relative_date2
    parse_relative_date2_try
  rw [h1, h2, h3, h4]
  exact ⟨by simp, by simp⟩

lemma parse_weeks (ref : Timestamp) (ds : PyStr) (hne : ds ≠ [])
    (hd : ∀ c ∈ ds, pyIsDigit c = true)
    (hb1 : 7 * (digitsVal ds : Int) ≤ timedeltaMaxDays)
    (hb2 : datetimeMinDay ≤ ref - 7 * (digitsVal ds : Int))
    (hb3 : ref - 7 * (digitsVal ds : Int) ≤ datetimeMaxDay) :
    parse_relative_date ref (ds ++ ' ' :: "weeks ago".toList)
        = .ok (some (ref - 7 * digitsVal ds))
      ∧ parse_relative_date2 ref (ds ++ ' ' :: "weeks ago".toList)
        = .ok (some (ref - 7 * digitsVal ds)) := by
  have hlow : strLower (ds ++ ' ' :: "weeks ago".toList)
      = ds ++ ' ' :: "weeks ago".toList :=
    strLower_digits_append hd (by decide)
  have hago : pyIn agoTok (strLower (ds ++ ' ' :: "weeks ago".toList)) = true := by
    rw [hlow]
    exact pyIn_append_right ds (by decide)
  have hmonth : pyIn monthTok (strLower (ds ++ ' ' :: "weeks ago".toList)) = false := by
    rw [hlow,
      pyIn_append_left (show monthTok.head? = some 'm' from rfl) ds _
        (digit_ne hd (by decide))]
    decide
  have hweek : pyIn weekTok (strLower (ds ++ ' ' :: "weeks ago".toList)) = true := by
    rw [hlow,
      pyIn_append_left (show weekTok.head? = some 'w' from rfl) ds _
        (digit_ne hd (by decide))]
    decide
  obtain ⟨e1, e2⟩ := parse_week_case ref hago hmonth hweek
  constructor
  · rw [e1, unitResult_digits ref 7 _ hne hd (by norm_num) hb1 hb2 hb3]
    rfl
  · rw [e2, hlow, unitResult_digits ref 7 _ hne hd (by norm_num) hb1 hb2 hb3]
    rfl

lemma parse_days (ref : Timestamp) (ds : PyStr) (hne : ds ≠ [])
    (hd : ∀ c ∈ ds, pyIsDigit c = true)
    (hb1 : 1 * (digitsVal ds : Int) ≤ timedeltaMaxDays)
    (hb2 : datetimeMinDay ≤ ref - 1 * (digitsVal ds : Int))
    (hb3 : ref - 1 * (digitsVal ds : Int) ≤ datetimeMaxDay) :
    parse_relative_date ref (ds ++ ' ' :: "days ago".toList)
        = .ok (some (ref - 1 * digitsVal ds))
      ∧ parse_relative_date2 ref (ds ++ ' ' :: "days ago".toList)
        = .ok (some (ref - 1 * digitsVal ds)) := by
  have hlow : strLower (ds ++ ' ' :: "days ago".toList)
      = ds ++ ' ' :: "days ago".toList :=
    strLower_digits_append hd (by decide)
  have hago : pyIn agoTok (strLower (ds ++ ' ' :: "days ago".toList)) = true := by
    rw [hlow]
    exact pyIn_append_right ds (by decide)
  have hmonth : pyIn monthTok (strLower (ds ++ ' ' :: "days ago".toList)) = false := by
    rw [hlow,
      pyIn_append_left (show monthTok.head? = some 'm' from rfl) ds _
        (digit_ne hd (by decide))]
    decide
  have hweek : pyIn weekTok (strLower (ds ++ ' ' :: "days ago".toList)) = false := by
    rw [hlow,
      pyIn_append_left (show weekTok.head? = some 'w' from rfl) ds _
        (digit_ne hd (by decide))]
    decide
  have hday : pyIn dayTok (strLower (ds ++ ' ' :: "days ago".toList)) = true := by
    rw [hlow,
      pyIn_append_left (show dayTok.head? = some 'd' from rfl) ds _
        (digit_ne hd (by decide))]
    decide
  obtain ⟨e1, e2⟩ := parse_day_case ref hago hmonth hweek hday
  constructor
  · rw [e1, unitResult_digits ref 1 _ hne hd (by norm_num) hb1 hb2 hb3]
    rfl
  · rw [e2, hlow, unitResult_digits ref 1 _ hne hd (by norm_num) hb1 hb2 hb3]
    rfl

lemma parse_months (ref : Timestamp) (ds : PyStr) (hne : ds ≠ [])
    (hd : ∀ c ∈ ds, pyIsDigit c = true)
    (hb1 : 30 * (digitsVal ds : Int) ≤ timedeltaMaxDays)
    (hb2 : datetimeMinDay ≤ ref - 30 * (digitsVal ds : Int))
    (hb3 : ref - 30 * (digitsVal ds : Int) ≤ datetimeMaxDay) :
    parse_relative_date ref (ds ++ ' ' :: "months ago".toList)
        = .ok (some (ref - 30 * digitsVal ds))
      ∧ parse_relative_date2 ref (ds ++ ' ' :: "months ago".toList)
        = .ok (some (ref - 30 * digitsVal ds)) := by
  have hlow : strLower (ds ++ ' ' :: "months ago".toList)
      = ds ++ ' ' :: "months ago".toList :=
    strLower_digits_append hd (by decide)
  have hago : pyIn agoTok (strLower (ds ++ ' ' :: "months ago".toList)) = true := by
    rw [hlow]
    exact pyIn_append_right ds (by decide)
  have hmonth : pyIn monthTok (strLower (ds ++ ' ' :: "months ago".toList)) = true := by
    rw [hlow,
      pyIn_append_left (show monthTok.head? = some 'm' from rfl) ds _
        (digit_ne hd (by decide))]
    decide
  obtain ⟨e1, e2⟩ := parse_month_case ref hago hmonth
  constructor
  · rw [e1, unitResult_digits ref 30 _ hne hd (by norm_num) hb1 hb2 hb3]
    rfl
  · rw [e2, hlow, unitResult_digits ref 30 _ hne hd (by norm_num) hb1 hb2 hb3]
    rfl

lemma parse_month_singular (ref : Timestamp) (ds : PyStr) (hne : ds ≠ [])
    (hd : ∀ c ∈ ds, pyIsDigit c = true)
    (hb1 : 30 * (digitsVal ds : Int) ≤ timedeltaMaxDays)
    (hb2 : datetimeMinDay ≤ ref - 30 * (digitsVal ds : Int))
    (hb3 : ref - 30 * (digitsVal ds : Int) ≤ datetimeMaxDay) :
    parse_relative_date ref (ds ++ ' ' :: "month ago".toList)
        = .ok (some (ref - 30 * digitsVal ds)) := by
  have hlow : strLower (ds ++ ' ' :: "month ago".toList)
      = ds ++ ' ' :: "month ago".toList :=
    strLower_digits_append hd (by decide)
  have hago : pyIn agoTok (strLower (ds ++ ' ' :: "month ago".toList)) = true := by
    rw [hlow]
    exact pyIn_append_right ds (by decide)
  have hmonth : pyIn monthTok (strLower (ds ++ ' ' :: "month ago".toList)) = true := by
    rw [hlow,
      pyIn_append_left (show monthTok.head? = some 'm' from rfl) ds _
        (digit_ne hd (by decide))]
    decide
  obtain ⟨e1, -⟩ := parse_month_case ref hago hmonth
  rw [e1, unitResult_digits ref 30 _ hne hd (by norm_num) hb1 hb2 hb3]
  rfl

/-- Claim C3 (amended): for a reference instant `T` and a nonnegative
integer written as a digit string, provided the delta stays within the
`timedelta` bound and the shifted dates stay within the `datetime` range
(years 1 to 9999), the parser maps `n weeks ago` to `T - 7n` days,
`n days ago` to `T - n` days and `n months ago` to `T - 30n` days (in both
script versions); in particular `2 weeks ago` gives `T - 14` and
`1 month ago` gives `T - 30`.  Outside that range `testdash.py` raises
`OverflowError` and `testdash2.py` yields the sentinel instead. -/
theorem c3_relative_units (ds : PyStr) (n : Nat) (ref : Timestamp)
    (hne : ds ≠ []) (hd : ∀ c ∈ ds, pyIsDigit c = true)
    (hval : digitsVal ds = n)
    (hr1 : datetimeMinDay ≤ ref - 30 * (n : Int))
    (hr2 : datetimeMinDay ≤ ref - 30)
    (hr3 : ref ≤ datetimeMaxDay)
    (hr4 : 30 * (n : Int) ≤ timedeltaMaxDays) :
    (parse_relative_date ref (ds ++ " weeks ago".toList) = .ok (some (ref - 7 * n))
      ∧ parse_relative_date2 ref (ds ++ " weeks ago".toList) = .ok (some (ref - 7 * n)))
    ∧ (parse_relative_date ref (ds ++ " days ago".toList) = .ok (some (ref - n))
      ∧ parse_relative_date2 ref (ds ++ " days ago".toList) = .ok (some (ref - n)))
    ∧ (parse_relative_date ref (ds ++ " months ago".toList) = .ok (some (ref - 30 * n))
      ∧ parse_relative_date2 ref (ds ++ " months ago".toList) = .ok (some (ref - 30 * n)))
    ∧ (parse_relative_date ref ("2 weeks ago".toList) = .ok (some (ref - 14))
      ∧ parse_relative_date ref ("1 month ago".toList) = .ok (some (ref - 30))) := by
  subst hval
  have hw : (" weeks ago".toList : PyStr) = ' ' :: "weeks ago".toList := by decide
  have hdy : (" days ago".toList : PyStr) = ' ' :: "days ago".toList := by decide
  have hmo : (" months ago".toList : PyStr) = ' ' :: "months ago".toList := by decide
  have hdnn : (0 : Int) ≤ (digitsVal ds : Int) := Int.natCast_nonneg _
  have h7le : 7 * (digitsVal ds : Int) ≤ 30 * (digitsVal ds : Int) :=
    mul_le_mul_of_nonneg_right (by norm_num) hdnn
  have h1le : 1 * (digitsVal ds : Int) ≤ 30 * (digitsVal ds : Int) :=
    mul_le_mul_of_nonneg_right (by norm_num) hdnn
  have h7nn : (0 : Int) ≤ 7 * (digitsVal ds : Int) := mul_nonneg (by norm_num) hdnn
  have h1nn : (0 : Int) ≤ 1 * (digitsVal ds : Int) := mul_nonneg (by norm_num) hdnn
  have h30nn : (0 : Int) ≤ 30 * (digitsVal ds : Int) := mul_nonneg (by norm_num) hdnn
  refine ⟨?_, ?_, ?_, ?_⟩
  · rw [hw]
    exact parse_weeks ref ds hne hd (le_trans h7le hr4)
      (le_trans hr1 (sub_le_sub_left h7le ref))
      (le_trans (sub_le_self ref h7nn) hr3)
  · rw [hdy]
    obtain ⟨h1, h2⟩ := parse_days ref ds hne hd (le_trans h1le hr4)
      (le_trans hr1 (sub_le_sub_left h1le ref))
      (le_trans (sub_le_self ref h1nn) hr3)
    constructor
    · rw [h1]
      norm_num
    · rw [h2]
      norm_num
  · rw [hmo]
    exact parse_months ref ds hne hd hr4 hr1 (le_trans (sub_le_self ref h30nn) hr3)
  · have hd2 : ((digitsVal ['2'] : Nat) : Int) = 2 := by decide
    have hd1 : ((digitsVal ['1'] : Nat) : Int) = 1 := by decide
    constructor
    · rw [show ("2 weeks ago".toList : PyStr) = ['2'] ++ ' ' :: "weeks ago".toList
        from by decide]
      have h := (parse_weeks ref ['2'] (by decide) (by decide) (by decide)
        (le_trans hr2 (sub_le_sub_left (by rw [hd2]; norm_num) ref))
        (le_trans (sub_le_self ref (by rw [hd2]; norm_num)) hr3)).1
      rw [h, hd2]
      norm_num
    · rw [show ("1 month ago".toList : PyStr) = ['1'] ++ ' ' :: "month ago".toList
        from by decide]
      have h := parse_month_singular ref ['1'] (by decide) (by decide) (by decide)
        (le_trans hr2 (sub_le_sub_left (by rw [hd1]; norm_num) ref))
        (le_trans (sub_le_self ref (by rw [hd1]; norm_num)) hr3)
      rw [h, hd1]
      norm_num

/-- Witness for C3 at a concrete input, at the reference date
`testdash.py` pins. -/
theorem c3_relative_units_witness :
    parse_relative_date (daysFromCivil 2025 9 5) ((['2'] : PyStr) ++ " weeks ago".toList)
      = .ok (some (daysFromCivil 2025 9 5 - 7 * ((2 : Nat) : Int))) :=
  (c3_relative_units ['2'] 2 (daysFromCivil 2025 9 5) (by decide) (by decide)
    (by decide) (by decide) (by decide) (by decide) (by decide)).1.1

/-- Counterexample to C3 as stated: at the pinned reference date, an
overflowing magnitude makes `testdash.py` raise `OverflowError` (so there is
no `T - 7n` result) and makes `testdash2.py` return the sentinel instead of
`T - 7n`. -/
theorem c3_counterexample_overflow :
    parse_relative_date (daysFromCivil 2025 9 5) ("120000 weeks ago".toList)
        ≠ .ok (some (daysFromCivil 2025 9 5 - 7 * 120000))
      ∧ parse_relative_date2 (daysFromCivil 2025 9 5) ("120000 weeks ago".toList)
        = .ok none := by
  constructor
  · have he : parse_relative_date (daysFromCivil 2025 9 5) ("120000 weeks ago".toList)
        = .error .overflowError := by rfl
    rw [he]
    exact fun h => Except.noConfusion h
  · rfl

/-- Claim C4: when the input contains `ago`, the unit words are tried in the
fixed priority order month, then week, then day, so the highest-priority unit
word present determines the branch (and hence the duration) in both script
versions. -/
theorem c4_unit_priority (s : PyStr) (ref : Timestamp)
    (hago : pyIn agoTok (strLower s) = true) :
    (pyIn monthTok (strLower s) = true →
        parse_relative_date ref s = pyCatchVT (unitResult ref 30 s)
          ∧ parse_relative_date2 ref s = pyCatchAll (unitResult ref 30 (strLower s)))
    ∧ (pyIn monthTok (strLower s) = false → pyIn weekTok (strLower s) = true →
        parse_relative_date ref s = pyCatchVT (unitResult ref 7 s)
          ∧ parse_relative_date2 ref s = pyCatchAll (unitResult ref 7 (strLower s)))
    ∧ (pyIn monthTok (strLower s) = false → pyIn weekTok (strLower s) = false →
        pyIn dayTok (strLower s) = true →
        parse_relative_date ref s = pyCatchVT (unitResult ref 1 s)
          ∧ parse_relative_date2 ref s = pyCatchAll (unitResult ref 1 (strLower s))) :=
  ⟨fun h2 => parse_month_case ref hago h2,
   fun h2 h3 => parse_week_case ref hago h2 h3,
   fun h2 h3 h4 => parse_day_case ref hago h2 h3 h4⟩

/-- Witness for C4: a string containing both `month` and `week` takes the
month branch. -/
theorem c4_unit_priority_witness :
    parse_relative_date 0 ("3 months 2 weeks ago".toList)
        = pyCatchVT (unitResult 0 30 ("3 months 2 weeks ago".toList))
      ∧ parse_relative_date2 0 ("3 months 2 weeks ago".toList)
        = pyCatchAll (unitResult 0 30 (strLower ("3 months 2 weeks ago".toList))) :=
  (c4_unit_priority ("3 months 2 weeks ago".toList) 0 (by decide)).1 (by decide)

/-- Claim C1 (amended to the `testdash.py` / `testdash2.py` pipelines): if a
required canonical field is absent after case- and whitespace-insensitive
header mapping, normalisation fails with a schema error whose payload names
that field, and no table is produced. -/
theorem c1_schema_error (hs : List PyStr) (rows : List (List PyStr)) (f : PyStr)
    (hreq : f ∈ requiredFields) (habs : ¬ f ∈ normalizedHeaders hs) :
    normalize_sheet hs rows = .error { missing := missing_cols hs }
      ∧ f ∈ missing_cols hs := by
  have hmap : f ∈ expected_columns.map Prod.snd := by
    fin_cases hreq <;> decide
  have hmem : f ∈ missing_cols hs := by
    unfold missing_cols
    rw [List.mem_filter]
    exact ⟨hmap, by simp [habs]⟩
  have hne : ¬ missing_cols hs = [] := fun h0 => by
    rw [h0] at hmem
    cases hmem
  exact ⟨by unfold normalize_sheet; rw [if_neg hne], hmem⟩

/-- Witness for C1 at a concrete input: an empty header list is missing
`company`. -/
theorem c1_schema_error_witness :
    normalize_sheet [] [] = .error { missing := missing_cols [] }
      ∧ ("company".toList : PyStr) ∈ missing_cols [] :=
  c1_schema_error [] [] ("company".toList) (by decide) (by decide)

/-- Counterexample to C1 as stated: in `main_dash.py`, a load whose header
has no `company` (nor title, status, or posted-date) column is not rejected —
`load_data` performs no missing-column check and hands the renamed table,
here a one-row table with only a `place` column, to its consumer. -/
theorem c1_counterexample_main_dash :
    load_data [[("place".toList, "Pune".toList)]]
        = [[("place".toList, "Pune".toList)]]
      ∧ load_data [[("place".toList, "Pune".toList)]] ≠ []
      ∧ ((load_data [[("place".toList, "Pune".toList)]]).headD []).map Prod.fst
        = ["place".toList] := by
  refine ⟨by decide, by decide, by decide⟩

lemma exceptMap_ok {α β : Type} {f : α → β} {e : Except PyError α} {b : β}
    (h : e.map f = .ok b) : ∃ a, e = .ok a ∧ b = f a := by
  cases e with
  | ok a =>
      refine ⟨a, rfl, ?_⟩
      simpa [Except.map] using h.symm
  | error er => simp [Except.map] at h

/-- Claim C7: every record surviving the cleaning pipeline has a valid
(non-sentinel) timestamp — rows whose date failed to parse are dropped by the
`dropna`, so no consumer of the cleaned table sees a missing date. -/
theorem c7_dropna (ref : Timestamp) (rows : List SheetRow) (out : List CleanRow)
    (h : cleanRows ref rows = .ok out) :
    ∀ r ∈ out, r.posted_on.isSome = true := by
  unfold cleanRows at h
  obtain ⟨parsed, -, hout⟩ := exceptMap_ok h
  subst hout
  intro r hr
  obtain ⟨q, hq, hrq⟩ := List.mem_map.mp hr
  have hqs := (List.mem_filter.mp hq).2
  rw [← hrq]
  simpa [cleanRow] using hqs

/-- A concrete input row for the witnesses. -/
def sampleSheetRow : SheetRow :=
  { job_postings := "A".toList
    company := "X".toList
    place := "Pune, MH".toList
    status := "Open".toList
    posted_on := "2 weeks ago".toList
    url_link := "u".toList }

/-- The cleaned form of `sampleSheetRow` at the reference date `testdash.py`
pins (2025-09-05). -/
def sampleCleanRow : CleanRow :=
  { job_postings := "A".toList
    company := "X".toList
    place := "Pune, MH".toList
    status := "Open".toList
    posted_on := some (daysFromCivil 2025 9 5 - 14)
    url_link := "u".toList
    city := "Pune".toList }

/-- Witness for C7 at a concrete input. -/
theorem c7_dropna_witness :
    cleanRows (daysFromCivil 2025 9 5) [sampleSheetRow] = .ok [sampleCleanRow]
      ∧ sampleCleanRow.posted_on.isSome = true :=
  ⟨by rfl,
   c7_dropna (daysFromCivil 2025 9 5) [sampleSheetRow] [sampleCleanRow] (by rfl)
     sampleCleanRow (List.mem_singleton.mpr rfl)⟩

lemma splitOnAux_headD (sep : Char) : ∀ (l acc : PyStr),
    (splitOnAux sep l acc).headD []
      = acc.reverse ++ l.takeWhile (fun c => c != sep) := by
  intro l
  induction l with
  | nil => intro acc; simp [splitOnAux]
  | cons c cs ih =>
      intro acc
      by_cases hc : c = sep
      · subst hc
        simp [splitOnAux, List.takeWhile_cons]
      · have heq : splitOnAux sep (c :: cs) acc = splitOnAux sep cs (c :: acc) := by
          simp [splitOnAux, hc]
        have hb : (c != sep) = true := bne_iff_ne.mpr hc
        rw [heq, ih (c :: acc)]
        simp [List.takeWhile_cons, hb, List.append_assoc]

lemma headD_pySplitOn (sep : Char) (l : PyStr) :
    (pySplitOn sep l).headD [] = l.takeWhile (fun c => c != sep) := by
  unfold pySplitOn
  rw [splitOnAux_headD]
  rfl

/-- Claim C8: the derived city is the stripped prefix of the (cleaned)
location up to the first comma; with no comma it is the whole stripped
location. -/
theorem c8_city (ref : Timestamp) (rows : List SheetRow) (out : List CleanRow)
    (h : cleanRows ref rows = .ok out) :
    ∀ r ∈ out, r.city = pyStrip (r.place.takeWhile (fun c => c != ','))
      ∧ ((¬ ',' ∈ r.place) → r.city = pyStrip r.place) := by
  unfold cleanRows at h
  obtain ⟨parsed, -, hout⟩ := exceptMap_ok h
  subst hout
  intro r hr
  obtain ⟨q, -, hrq⟩ := List.mem_map.mp hr
  subst hrq
  have hcity : (cleanRow q).city
      = pyStrip (((cleanRow q).place).takeWhile (fun c => c != ',')) := by
    simp only [cleanRow]
    rw [headD_pySplitOn]
  refine ⟨hcity, fun hnc => ?_⟩
  rw [hcity, List.takeWhile_eq_self_iff.mpr ?_]
  intro c hcmem
  exact bne_iff_ne.mpr (fun he => hnc (he ▸ hcmem))

/-- Witness for C8 at a concrete input. -/
theorem c8_city_witness :
    sampleCleanRow.city
      = pyStrip ((sampleCleanRow.place).takeWhile (fun c => c != ',')) :=
  (c8_city (daysFromCivil 2025 9 5) [sampleSheetRow] [sampleCleanRow] (by rfl)
    sampleCleanRow (List.mem_singleton.mpr rfl)).1

lemma dropWhile_head_false {p : Char → Bool} :
    ∀ {l : PyStr} {c : Char} {cs : PyStr}, l.dropWhile p = c :: cs → p c = false := by
  intro l
  induction l with
  | nil => intro c cs h; cases h
  | cons a as ih =>
      intro c cs h
      rw [List.dropWhile_cons] at h
      by_cases hp : p a = true
      · rw [if_pos hp] at h
        exact ih h
      · rw [if_neg hp] at h
        cases h
        exact Bool.not_eq_true _ ▸ Bool.eq_false_iff.mpr hp

lemma pyStrip_has_nonspace {k : PyStr} (h : pyStrip k ≠ []) :
    ∃ c ∈ pyStrip k, pyIsSpace c = false := by
  unfold pyStrip at h ⊢
  cases hi : (k.dropWhile pyIsSpace).reverse.dropWhile pyIsSpace with
  | nil => rw [hi] at h; exact absurd rfl h
  | cons c cs =>
      refine ⟨c, ?_, dropWhile_head_false hi⟩
      exact List.mem_reverse.mpr (List.mem_cons_self c cs)

lemma pyTerms_nonspace {kws t : PyStr} (h : t ∈ pyTerms kws) :
    ∃ c ∈ t, pyIsSpace c = false := by
  unfold pyTerms at h
  obtain ⟨k, -, hk⟩ := List.mem_filterMap.mp h
  by_cases hs : pyStrip k = []
  · rw [if_pos hs] at hk
    cases hk
  · rw [if_neg hs] at hk
    obtain ⟨c, hc, hcs⟩ := pyStrip_has_nonspace hs
    cases Option.some.inj hk
    exact ⟨pyLower c, List.mem_map.mpr ⟨c, hc, rfl⟩, pyLower_nonspace hcs⟩

lemma blank_no_match {kws d t : PyStr} (hb : ∀ c ∈ d, pyIsSpace c = true)
    (ht : t ∈ pyTerms kws) : pyIn t (strLower d) = false := by
  obtain ⟨c0, hc0, hc0s⟩ := pyTerms_nonspace ht
  cases hin : pyIn t (strLower d)
  · rfl
  · exfalso
    obtain ⟨x, hx, hxl⟩ := List.mem_map.mp (pyIn_subset hin c0 hc0)
    have hxs : pyIsSpace x = true := hb x hx
    rw [← hxl, pyLower_of_space hxs, hxs] at hc0s
    cases hc0s

/-- Claim C5: with a nonempty term list, the keyword filter keeps exactly the
records whose (lower-cased, absent-defaulted) description contains at least
one term as a substring, and a record with an absent or blank description is
never kept. -/
theorem c5_keyword_or (rows : List MainRow) (keywords : PyStr)
    (hterms : pyTerms keywords ≠ []) :
    (∀ r : MainRow, r ∈ keyword_filter keywords rows ↔
        r ∈ rows ∧ ∃ t ∈ pyTerms keywords,
          pyIn t (strLower ((r.job_description).getD [])) = true)
    ∧ ∀ r ∈ rows, (∀ c ∈ (r.job_description).getD [], pyIsSpace c = true) →
        ¬ r ∈ keyword_filter keywords rows := by
  have hkw : ¬ keywords = [] := fun h0 => hterms (by rw [h0]; rfl)
  unfold keyword_filter
  rw [if_neg hkw]
  constructor
  · intro r
    rw [List.mem_filter]
    constructor
    · rintro ⟨hr, hm⟩
      exact ⟨hr, by simpa [keywordMask, List.any_eq_true] using hm⟩
    · rintro ⟨hr, hex⟩
      exact ⟨hr, by simpa [keywordMask, List.any_eq_true] using hex⟩
  · intro r _ hb hmem
    obtain ⟨t, ht, hin⟩ := by
      simpa [keywordMask, List.any_eq_true] using (List.mem_filter.mp hmem).2
    rw [blank_no_match hb ht] at hin
    cases hin

/-- A concrete dashboard record for the witnesses. -/
def sampleMainRow : MainRow :=
  { job_postings := "A".toList
    company := "X".toList
    place := "P".toList
    status := "Open".toList
    posted_on := "d".toList
    url_link := "u".toList
    job_description := some ("Uses AWS and Python".toList) }

/-- Witness for C5 at a concrete input. -/
theorem c5_keyword_or_witness :
    sampleMainRow ∈ keyword_filter ("aws".toList) [sampleMainRow] ↔
      sampleMainRow ∈ [sampleMainRow] ∧ ∃ t ∈ pyTerms ("aws".toList),
        pyIn t (strLower ((sampleMainRow.job_description).getD [])) = true :=
  (c5_keyword_or [sampleMainRow] ("aws".toList) (by decide)).1 sampleMainRow

/-- Claim C6: the dashboard filter chain keeps exactly the records meeting
all active dimensions at once; an empty selection imposes no constraint, and
the company, place and status tests are case-sensitive exact membership. -/
theorem c6_filter_and (companies places statuses : List PyStr)
    (keywords : PyStr) (rows : List MainRow) (r : MainRow) :
    r ∈ update_table_filter companies places statuses keywords rows ↔
      r ∈ rows ∧ (companies ≠ [] → r.company ∈ companies)
        ∧ (places ≠ [] → r.place ∈ places)
        ∧ (statuses ≠ [] → r.status ∈ statuses)
        ∧ (keywords ≠ [] → keywordMask keywords r.job_description = true) := by
  unfold update_table_filter keyword_filter
  by_cases h1 : companies = [] <;> by_cases h2 : places = [] <;>
    by_cases h3 : statuses = [] <;> by_cases h4 : keywords = [] <;>
      (simp [h1, h2, h3, h4, List.mem_filter, and_assoc] <;> tauto)

lemma splitOn_space_pieces : ∀ (l acc : PyStr),
    (∀ c ∈ l, c = ',' ∨ pyIsSpace c = true) →
    (∀ c ∈ acc, pyIsSpace c = true) →
    ∀ p ∈ splitOnAux ',' l acc, ∀ c ∈ p, pyIsSpace c = true := by
  intro l
  induction l with
  | nil =>
      intro acc _ hacc p hp c hc
      simp only [splitOnAux, List.mem_singleton] at hp
      subst hp
      exact hacc c (List.mem_reverse.mp hc)
  | cons a as ih =>
      intro acc hl hacc p hp c hc
      by_cases ha : a = ','
      · rw [show splitOnAux ',' (a :: as) acc
            = acc.reverse :: splitOnAux ',' as [] by simp [splitOnAux, ha]] at hp
        rcases List.mem_cons.mp hp with hpe | hpr
        · subst hpe
          exact hacc c (List.mem_reverse.mp hc)
        · exact ih [] (fun x hx => hl x (List.mem_cons_of_mem a hx))
            (fun x hx => absurd hx (List.not_mem_nil x)) p hpr c hc
      · have has : pyIsSpace a = true := (hl a (List.mem_cons_self a as)).resolve_left ha
        rw [show splitOnAux ',' (a :: as) acc
            = splitOnAux ',' as (a :: acc) by simp [splitOnAux, ha]] at hp
        refine ih (a :: acc) (fun x hx => hl x (List.mem_cons_of_mem a hx))
          (fun x hx => ?_) p hp c hc
        rcases List.mem_cons.mp hx with hxa | hxacc
        · subst hxa; exact has
        · exact hacc x hxacc

lemma pyStrip_all_space {p : PyStr} (h : ∀ c ∈ p, pyIsSpace c = true) :
    pyStrip p = [] := by
  unfold pyStrip
  rw [List.dropWhile_eq_nil_iff.mpr h]
  rfl

lemma pyTerms_empty {kws : PyStr} (h : ∀ c ∈ kws, c = ',' ∨ pyIsSpace c = true) :
    pyTerms kws = [] := by
  unfold pyTerms
  rw [List.filterMap_eq_nil_iff]
  intro k hk
  have hks : ∀ c ∈ k, pyIsSpace c = true :=
    splitOn_space_pieces kws [] h (fun c hc => absurd hc (List.not_mem_nil c)) k hk
  rw [if_pos (pyStrip_all_space hks)]

/-- Claim C10: a nonempty keywords string consisting only of commas and
whitespace parses to an empty term list, and the dashboard table update then
excludes every record instead of imposing no constraint. -/
theorem c10_blank_keywords (companies places statuses : List PyStr)
    (rows : List MainRow) (keywords : PyStr) (hne : keywords ≠ [])
    (hcs : ∀ c ∈ keywords, c = ',' ∨ pyIsSpace c = true) :
    update_table_filter companies places statuses keywords rows = [] := by
  simp only [update_table_filter, keyword_filter]
  rw [if_neg hne, List.filter_eq_nil_iff]
  intro r _
  unfold keywordMask
  rw [pyTerms_empty hcs]
  simp

/-- Witness for C10 at a concrete input. -/
theorem c10_blank_keywords_witness :
    update_table_filter [] [] [] (", ,  ".toList) [sampleMainRow] = [] :=
  c10_blank_keywords [] [] [] [sampleMainRow] (", ,  ".toList) (by decide) (by decide)

lemma uniqueInOrderAux_subset :
    ∀ (l seen : List PyStr), ∀ v ∈ uniqueInOrderAux l seen, v ∈ l := by
  intro l
  induction l with
  | nil => intro seen v hv; simp [uniqueInOrderAux] at hv
  | cons x xs ih =>
      intro seen v hv
      rw [uniqueInOrderAux] at hv
      by_cases hx : x ∈ seen
      · rw [if_pos hx] at hv
        exact List.mem_cons_of_mem x (ih seen v hv)
      · rw [if_neg hx] at hv
        rcases List.mem_cons.mp hv with h | h
        · exact h ▸ List.mem_cons_self x xs
        · exact List.mem_cons_of_mem x (ih (x :: seen) v h)

lemma mem_uniqueInOrderAux : ∀ (l seen : List PyStr), ∀ v ∈ l, ¬ v ∈ seen →
    v ∈ uniqueInOrderAux l seen := by
  intro l
  induction l with
  | nil => intro seen v hv _; cases hv
  | cons x xs ih =>
      intro seen v hv hns
      rw [uniqueInOrderAux]
      by_cases hx : x ∈ seen
      · rw [if_pos hx]
        rcases List.mem_cons.mp hv with h | h
        · exact absurd (h ▸ hx) hns
        · exact ih seen v h hns
      · rw [if_neg hx]
        by_cases hvx : v = x
        · exact hvx ▸ List.mem_cons_self x _
        · rcases List.mem_cons.mp hv with h | h
          · exact absurd h hvx
          · refine List.mem_cons_of_mem x (ih (x :: seen) v h ?_)
            intro hmem
            rcases List.mem_cons.mp hmem with h2 | h2
            · exact hvx h2
            · exact hns h2

lemma uniqueInOrderAux_nodup : ∀ (l seen : List PyStr),
    (uniqueInOrderAux l seen).Nodup
      ∧ ∀ v ∈ uniqueInOrderAux l seen, ¬ v ∈ seen := by
  intro l
  induction l with
  | nil =>
      intro seen
      constructor
      · simp [uniqueInOrderAux]
      · intro v hv; simp [uniqueInOrderAux] at hv
  | cons x xs ih =>
      intro seen
      rw [uniqueInOrderAux]
      by_cases hx : x ∈ seen
      · rw [if_pos hx]
        exact ih seen
      · rw [if_neg hx]
        obtain ⟨hnd, hinv⟩ := ih (x :: seen)
        constructor
        · refine List.nodup_cons.mpr ⟨?_, hnd⟩
          intro hmem
          exact hinv x hmem (List.mem_cons_self x seen)
        · intro v hv
          rcases List.mem_cons.mp hv with h | h
          · exact h ▸ hx
          · intro hmem
            exact hinv v h (List.mem_cons_of_mem x hmem)

lemma uniqueInOrder_subset : ∀ (l : List PyStr), ∀ v ∈ uniqueInOrder l, v ∈ l :=
  fun l v hv => uniqueInOrderAux_subset l [] v hv

lemma mem_uniqueInOrder : ∀ (l : List PyStr), ∀ v ∈ l, v ∈ uniqueInOrder l :=
  fun l v hv => mem_uniqueInOrderAux l [] v hv (List.not_mem_nil v)

lemma uniqueInOrder_nodup : ∀ (l : List PyStr), (uniqueInOrder l).Nodup :=
  fun l => (uniqueInOrderAux_nodup l []).1

lemma firstIdx_inj : ∀ (l : List PyStr) (v w : PyStr), v ∈ l → w ∈ l →
    firstIdx v l = firstIdx w l → v = w := by
  intro l
  induction l with
  | nil => intro v w hv _ _; cases hv
  | cons x xs ih =>
      intro v w hv hw heq
      by_cases hvx : x = v <;> by_cases hwx : x = w
      · rw [← hvx, ← hwx]
      · simp only [firstIdx, if_pos hvx, if_neg hwx] at heq
        exact absurd heq.symm (Nat.succ_ne_zero _)
      · simp only [firstIdx, if_neg hvx, if_pos hwx] at heq
        exact absurd heq (Nat.succ_ne_zero _)
      · simp only [firstIdx, if_neg hvx, if_neg hwx] at heq
        have hv' : v ∈ xs := by
          rcases List.mem_cons.mp hv with h | h
          · exact absurd h.symm hvx
          · exact h
        have hw' : w ∈ xs := by
          rcases List.mem_cons.mp hw with h | h
          · exact absurd h.symm hwx
          · exact h
        exact ih v w hv' hw' (by omega)

lemma rankedPairs_shape {l : List PyStr} {e : (PyStr × Nat) × Nat}
    (he : e ∈ rankedPairs l) :
    e.1.1 ∈ l ∧ e.1.2 = countOcc e.1.1 l ∧ e.2 = firstIdx e.1.1 l := by
  obtain ⟨v, hv, rfl⟩ := List.mem_map.mp he
  exact ⟨uniqueInOrder_subset l v hv, rfl, rfl⟩

lemma topFive_spec_general (l : List PyStr) :
    TopFiveSpec l ((value_counts l).take 5) := by
  have hperm := List.perm_insertionSort vcLe (rankedPairs l)
  have hsorted : (List.insertionSort vcLe (rankedPairs l)).Pairwise vcLe :=
    List.sorted_insertionSort vcLe (rankedPairs l)
  have hndbase : (rankedPairs l).Pairwise (fun a b => a.1.1 ≠ b.1.1) := by
    unfold rankedPairs
    rw [List.pairwise_map]
    exact (uniqueInOrder_nodup l).imp (fun h => h)
  have hnd : (List.insertionSort vcLe (rankedPairs l)).Pairwise
      (fun a b => a.1.1 ≠ b.1.1) :=
    (hperm.pairwise_iff (fun hab => Ne.symm hab)).mpr hndbase
  have hfo : (List.insertionSort vcLe (rankedPairs l)).Pairwise
      (fun a b => firstOccOrder l a.1 b.1) := by
    refine (hsorted.and hnd).imp_of_mem ?_
    intro a b ha hb hab
    obtain ⟨hva, -, hia⟩ := rankedPairs_shape (hperm.mem_iff.mp ha)
    obtain ⟨hvb, -, hib⟩ := rankedPairs_shape (hperm.mem_iff.mp hb)
    obtain ⟨hle, hne⟩ := hab
    rcases hle with hlt | ⟨hceq, hile⟩
    · exact Or.inl hlt
    · refine Or.inr ⟨hceq, ?_⟩
      rw [hia, hib] at hile
      have hidx : firstIdx a.1.1 l ≠ firstIdx b.1.1 l :=
        fun he => hne (firstIdx_inj l _ _ hva hvb he)
      omega
  refine ⟨?_, ?_, ?_⟩
  · unfold value_counts
    rw [List.length_take, List.length_map, hperm.length_eq]
    unfold rankedPairs
    rw [List.length_map]
  · intro p hp
    have hp' : p ∈ value_counts l := (List.take_sublist 5 _).subset hp
    unfold value_counts at hp'
    obtain ⟨e, he, rfl⟩ := List.mem_map.mp hp'
    obtain ⟨-, hc, -⟩ := rankedPairs_shape (hperm.mem_iff.mp he)
    exact hc
  · have hvc : (value_counts l).Pairwise (firstOccOrder l) := by
      unfold value_counts
      rw [List.pairwise_map]
      exact hfo
    exact hvc.sublist (List.take_sublist 5 _)

/-- Claim C9: each top-5 aggregation (by company, by place, by city) has
exactly `min 5 (number of distinct values)` entries, pairs each value with
its occurrence count, and is ordered by count descending with ties broken by
first occurrence in the column; `uniqueInOrder` is exactly the list of
distinct values. -/
theorem c9_top_five (rows : List CleanRow) :
    TopFiveSpec (rows.map (fun r => r.company)) (top_companies rows)
    ∧ TopFiveSpec (rows.map (fun r => r.place)) (top_places rows)
    ∧ TopFiveSpec (rows.map (fun r => r.city)) (city_counts rows)
    ∧ ∀ m : List PyStr, (uniqueInOrder m).Nodup
        ∧ ∀ v, v ∈ uniqueInOrder m ↔ v ∈ m :=
  ⟨topFive_spec_general _, topFive_spec_general _, topFive_spec_general _,
   fun m => ⟨uniqueInOrder_nodup m,
     fun v => ⟨fun h => uniqueInOrder_subset m v h, fun h => mem_uniqueInOrder m v h⟩⟩⟩

/-- Witness for C9 at a concrete input. -/
theorem c9_top_five_witness :
    (top_companies [sampleCleanRow]).length
      = min 5 (uniqueInOrder ([sampleCleanRow].map (fun r => r.company))).length := by
  have h := (c9_top_five [sampleCleanRow]).1
  unfold TopFiveSpec at h
  exact h.1
